import Mathlib

/-!
Verification of the yourmail message delivery core against its
specification. The definitions below are a shallow embedding of the Go
source: the SQLite message table becomes a list of rows, the repository
queries become pure functions on that list, the session and endpoint
handlers become explicit state-passing functions, and the fan-out hub
goroutines become an explicit interleaving semantics. Machine integers of
the source are modelled as Nat, creation timestamps as Nat time units, and
SQL NULL as Option.
-/

/-- Message row, following the messages table and the Go struct
database.Message in internal/database/models.go. Virtual join fields
(FromUser, ToUser, Attachments) that no verified claim mentions are
omitted; the Replies virtual field lives in InboxEntry below because only
the inbox query populates it. -/
structure Message where
  id : Nat
  fromUserID : Option Nat
  toUserID : Option Nat
  fromAddress : String
  toAddress : String
  subject : String
  body : String
  isHTML : Bool
  threadID : Option String
  parentID : Option Nat
  readStatus : Bool
  createdAt : Nat
  deriving DecidableEq

/-- The messages table plus the AUTOINCREMENT counter: rows are kept in
insertion order (which is also rowid order, since id is INTEGER PRIMARY KEY
AUTOINCREMENT), and nextId is the next id the database will assign. -/
structure Store where
  messages : List Message
  nextId : Nat
  deriving DecidableEq

/-- The character encoding/hex uses for one nibble: the hextable string
0123456789abcdef of the Go standard library. -/
def hexDigit (n : Nat) : Char :=
  if n < 10 then Char.ofNat (48 + n) else Char.ofNat (87 + n)

/-- The character sequence hex.EncodeToString produces, high nibble first
(for byte values below 256 the shift by four equals division by 16). -/
def hexChars : List Nat → List Char
  | [] => []
  | b :: rest => hexDigit (b / 16) :: hexDigit (b % 16) :: hexChars rest

/-- generateThreadID of message_repository.go: the hex encoding of 16
bytes drawn from crypto/rand. The random bytes are passed in as an oracle
argument, modelling the successful read path. -/
def generateThreadID (randBytes : List Nat) : String :=
  ⟨hexChars randBytes⟩

/-- Left inverse of hexDigit on nibbles, used to prove injectivity of the
generated thread identifiers. -/
def hexVal (c : Char) : Nat :=
  if c.toNat < 97 then c.toNat - 48 else c.toNat - 87

/-- CreateWithThreading of message_repository.go: when both threadID and
parentID are absent, a fresh thread identifier is generated from 16 random
bytes; otherwise the supplied threadID (possibly NULL) is stored verbatim
and the parent is not consulted at all. The row is inserted with
read_status FALSE and the reloaded record is returned. -/
def createWithThreading (s : Store) (fromUserID toUserID : Option Nat)
    (fromAddress toAddress subject body : String) (isHTML : Bool)
    (threadID : Option String) (parentID : Option Nat)
    (randBytes : List Nat) (now : Nat) : Store × Message :=
  let tid := if threadID = none ∧ parentID = none
    then some (generateThreadID randBytes) else threadID
  let m : Message :=
    { id := s.nextId, fromUserID := fromUserID, toUserID := toUserID,
      fromAddress := fromAddress, toAddress := toAddress, subject := subject,
      body := body, isHTML := isHTML, threadID := tid, parentID := parentID,
      readStatus := false, createdAt := now }
  (⟨s.messages ++ [m], s.nextId + 1⟩, m)

/-- The thread invariant stated by the specification: every stored message
with a parent carries the thread identifier of every stored message whose
id is its parent id. -/
def ThreadParentInv (msgs : List Message) : Prop :=
  ∀ m ∈ msgs, ∀ pm ∈ msgs, m.parentID = some pm.id → m.threadID = pm.threadID

/-- Insertion into a sorted list; building block for the model of the SQL
ORDER BY clauses. -/
def insertLe (le : Message → Message → Bool) (a : Message) :
    List Message → List Message
  | [] => [a]
  | b :: bs => if le a b then a :: b :: bs else b :: insertLe le a bs

/-- Stable sort modelling ORDER BY: it guarantees exactly the pairwise
ordering the SQL clause guarantees, and fixes one concrete order for rows
whose keys tie. -/
def sortLe (le : Message → Message → Bool) : List Message → List Message
  | [] => []
  | a :: as => insertLe le a (sortLe le as)

/-- Comparator for ORDER BY m.created_at ASC. -/
def createdLe (a b : Message) : Bool :=
  decide (a.createdAt ≤ b.createdAt)

/-- GetThreadByID of message_repository.go: all rows with the given thread
id, ordered by creation time ascending. The LEFT JOIN on users only fills
the virtual FromUser field and joins on the primary key, so it does not
change which rows are selected. -/
def getThreadByID (msgs : List Message) (threadID : String) : List Message :=
  sortLe createdLe (msgs.filter (fun m => decide (m.threadID = some threadID)))

/-- The repository call with the store threaded through, to state that the
query reads but never writes: calling it twice without intervening writes
returns identical results. -/
def getThreadByIDOp (threadID : String) (s : Store) : List Message × Store :=
  (getThreadByID s.messages threadID, s)

/-- SQL comparison thread_id = t of the correlated subqueries in
GetInboxForUser: a NULL thread id matches no row. -/
def sameThreadB (t : Option String) (m : Message) : Bool :=
  match t with
  | none => false
  | some s => decide (m.threadID = some s)

/-- The MIN aggregate over a list of ids; none on the empty list, matching
SQL MIN returning NULL. -/
def minNat? : List Nat → Option Nat
  | [] => none
  | x :: xs =>
    match minNat? xs with
    | none => some x
    | some y => some (min x y)

/-- The MAX aggregate over a list of values; none on the empty list. -/
def maxNat? : List Nat → Option Nat
  | [] => none
  | x :: xs =>
    match maxNat? xs with
    | none => some x
    | some y => some (max x y)

/-- Subquery SELECT MIN(id) FROM messages WHERE thread_id = t AND
to_user_id = u of GetInboxForUser. -/
def minIdTo (msgs : List Message) (u : Nat) (t : Option String) : Option Nat :=
  minNat? ((msgs.filter (fun m => sameThreadB t m && decide (m.toUserID = some u))).map
    (fun m => m.id))

/-- Subquery SELECT MAX(created_at) FROM messages WHERE thread_id = t AND
to_user_id = u, the last_message_time sort key of GetInboxForUser (the
DATETIME formatting preserves the ordering and is dropped). -/
def lastTimeTo (msgs : List Message) (u : Nat) (t : Option String) : Option Nat :=
  maxNat? ((msgs.filter (fun m => sameThreadB t m && decide (m.toUserID = some u))).map
    (fun m => m.createdAt))

/-- Subquery SELECT COUNT(*) FROM messages WHERE thread_id = t AND
to_user_id = u, bound to reply_count in GetInboxForUser. -/
def replyCountTo (msgs : List Message) (u : Nat) (t : Option String) : Nat :=
  (msgs.filter (fun m => sameThreadB t m && decide (m.toUserID = some u))).length

/-- The WHERE clause of GetInboxForUser: rows addressed to the user that
either have no parent or carry the minimal id among the rows of their
thread addressed to the user (a NULL subquery result makes the comparison
false, as in SQL). -/
def isCandidate (msgs : List Message) (u : Nat) (m : Message) : Bool :=
  decide (m.toUserID = some u) &&
    (decide (m.parentID = none) ||
      match minIdTo msgs u m.threadID with
      | some k => decide (m.id = k)
      | none => false)

/-- ORDER BY last_message_time DESC. SQLite sorts NULL below every value,
so a NULL key comes last in descending order. -/
def timeLeDesc : Option Nat → Option Nat → Bool
  | none, none => true
  | none, some _ => false
  | some _, none => true
  | some x, some y => decide (y ≤ x)

/-- Comparator on representative rows for the outer ORDER BY of
GetInboxForUser. -/
def inboxLe (msgs : List Message) (u : Nat) (a b : Message) : Bool :=
  timeLeDesc (lastTimeTo msgs u a.threadID) (lastTimeTo msgs u b.threadID)

/-- One row of the inbox result: the representative message plus the
Replies virtual field populated by GetInboxForUser. -/
structure InboxEntry where
  msg : Message
  replies : List Message
  deriving DecidableEq

/-- The reply loading step of GetInboxForUser: only when the thread id is
non-NULL and reply_count exceeds one, the whole thread is loaded and its
first element (the earliest-created row) is dropped; otherwise Replies
stays empty. -/
def mkEntry (msgs : List Message) (u : Nat) (m : Message) : InboxEntry :=
  match m.threadID with
  | some t =>
    if 1 < replyCountTo msgs u (some t) then
      let replies := getThreadByID msgs t
      if 1 < replies.length then ⟨m, replies.drop 1⟩ else ⟨m, []⟩
    else ⟨m, []⟩
  | none => ⟨m, []⟩

/-- GROUP BY m.thread_id returns the non-aggregate columns of one
arbitrary row per group, so the embedding is parameterised by the row
choice; a valid choice returns some member of every nonempty group. -/
def ValidPick (pick : List Message → Option Message) : Prop :=
  (∀ l m, pick l = some m → m ∈ l) ∧ (∀ l, l ≠ [] → pick l ≠ none)

/-- The rows passing the WHERE clause of GetInboxForUser, in table scan
order. -/
def inboxCandidates (msgs : List Message) (u : Nat) : List Message :=
  msgs.filter (isCandidate msgs u)

/-- The distinct thread ids occurring among the candidate rows: the groups
formed by GROUP BY m.thread_id, NULL ids forming one group as in SQLite. -/
def inboxKeys (msgs : List Message) (u : Nat) : List (Option String) :=
  ((inboxCandidates msgs u).map (fun m => m.threadID)).dedup

/-- The candidate rows of one group. -/
def inboxGroup (msgs : List Message) (u : Nat) (t : Option String) :
    List Message :=
  (inboxCandidates msgs u).filter (fun m => decide (m.threadID = t))

/-- One representative row per group, picked by the GROUP BY row choice. -/
def inboxRepsRaw (pick : List Message → Option Message) (msgs : List Message)
    (u : Nat) : List Message :=
  (inboxKeys msgs u).filterMap (fun t => pick (inboxGroup msgs u t))

/-- The representative rows of GetInboxForUser before LIMIT and OFFSET,
ordered by last_message_time descending. -/
def inboxReps (pick : List Message → Option Message) (msgs : List Message)
    (u : Nat) : List Message :=
  sortLe (inboxLe msgs u) (inboxRepsRaw pick msgs u)

/-- GetInboxForUser of message_repository.go: the ordered representative
rows, then OFFSET and LIMIT on those rows, then reply loading on each
returned row. -/
def getInboxForUser (pick : List Message → Option Message)
    (msgs : List Message) (u : Nat) (limit offset : Nat) : List InboxEntry :=
  (((inboxReps pick msgs u).drop offset).take limit).map (mkEntry msgs u)

/-- GetUnreadCount of message_repository.go: COUNT of rows addressed to
the user whose read flag is still false. -/
def getUnreadCount (msgs : List Message) (u : Nat) : Nat :=
  (msgs.filter (fun m => decide (m.toUserID = some u) &&
    decide (m.readStatus = false))).length

/-- GetByID of message_repository.go: lookup by primary key. -/
def getByID (msgs : List Message) (id : Nat) : Option Message :=
  msgs.find? (fun m => decide (m.id = id))

/-- MarkAsRead of message_repository.go: UPDATE messages SET read_status =
TRUE WHERE id = the given id. -/
def markAsRead (msgs : List Message) (id : Nat) : List Message :=
  msgs.map (fun m => if m.id = id then { m with readStatus := true } else m)

/-- Response classes of the mark-as-read endpoint: 404, 403 and 200. -/
inductive MarkReadResponse
  | notFound
  | accessDenied
  | success
  deriving DecidableEq

/-- handleMarkAsRead of the request server: load the message, respond
not-found when absent, access-denied unless the requester is the local
recipient, and only then set the read flag. -/
def handleMarkAsRead (msgs : List Message) (userID messageID : Nat) :
    List Message × MarkReadResponse :=
  match getByID msgs messageID with
  | none => (msgs, .notFound)
  | some m =>
    if m.toUserID = some userID then (markAsRead msgs messageID, .success)
    else (msgs, .accessDenied)

/-- The pending compose fields of a session (the currentMessage struct of
internal/protocol/session.go). -/
structure ComposeState where
  sendTo : String
  subject : String
  body : String
  deriving DecidableEq

/-- Per-connection session state: the authentication flag, the
authenticated user, and the pending compose fields. -/
structure SessionState where
  authenticated : Bool
  userID : Nat
  username : String
  currentMessage : ComposeState
  deriving DecidableEq

/-- Go strings.Split for a one-character separator. -/
def splitOnChar (c : Char) : List Char → List (List Char)
  | [] => [[]]
  | x :: xs =>
    if x = c then [] :: splitOnChar c xs
    else
      match splitOnChar c xs with
      | [] => [[x]]
      | y :: ys => (x :: y) :: ys

/-- strings.Split of an address on the at sign. -/
def addrParts (s : String) : List String :=
  (splitOnChar '@' s.data).map (fun l => String.mk l)

/-- Local-recipient resolution shared by handleBody and handleSendMessage:
the address must split on the at sign into exactly two parts with the
server host as domain; the username lookup against the user store is the
external identity resolver, passed in as a function. -/
def resolveLocalRecipient (host : String) (lookup : String → Option Nat)
    (toAddr : String) : Option Nat :=
  let parts := addrParts toAddr
  if parts.length = 2 ∧ parts.getD 1 "" = host then lookup (parts.getD 0 "")
  else none

/-- Response classes of handleBody: the 530, 503, 550 and 250 lines. -/
inductive SessionResponse
  | notAuthenticated
  | needSendAndSubject
  | sendFailed
  | sentOk (id : Nat)
  deriving DecidableEq

/-- The literal response lines handleBody writes for each response class. -/
def responseText : SessionResponse → String
  | .notAuthenticated => "530 Not authenticated"
  | .needSendAndSubject => "503 Use SEND and SUBJECT commands first"
  | .sendFailed => "550 Failed to send message"
  | .sentOk id => "250 Message sent successfully (ID: " ++ toString id ++ ")"

/-- handleBody of internal/protocol/session.go. The dbOk flag is the
oracle for the INSERT outcome; randBytes and now feed createWithThreading,
since BODY submits through Create, which is CreateWithThreading with no
threading hints. Returns the store, the session state, the response class,
and whether the Thread Store was contacted. -/
def handleBody (host : String) (lookup : String → Option Nat) (store : Store)
    (s : SessionState) (args : String) (dbOk : Bool) (randBytes : List Nat)
    (now : Nat) : Store × SessionState × SessionResponse × Bool :=
  if s.authenticated = false then (store, s, .notAuthenticated, false)
  else if s.currentMessage.sendTo = "" ∨ s.currentMessage.subject = "" then
    (store, s, .needSendAndSubject, false)
  else
    let s1 : SessionState :=
      { s with currentMessage := { s.currentMessage with body := args } }
    let fromAddress := s.username ++ "@" ++ host
    let toUserID := resolveLocalRecipient host lookup s1.currentMessage.sendTo
    if dbOk then
      let r := createWithThreading store (some s.userID) toUserID fromAddress
        s1.currentMessage.sendTo s1.currentMessage.subject args false none none
        randBytes now
      (r.1, { s1 with currentMessage := ⟨"", "", ""⟩ }, .sentOk r.2.id, true)
    else (store, s1, .sendFailed, true)

/-- Outcome of the single HTTP push a relay attempt makes: a transport
error from http.Post, or a response with the given status code. -/
inductive RelayOutcome
  | transportError
  | httpStatus (code : Nat)
  deriving DecidableEq

/-- Relay SendMessage of the federation package: immediate success without
any push when the target host is this server; otherwise exactly one POST,
whose result is an error for transport failures and for every status code
other than 200. Returns the error flag and the number of outbound pushes. -/
def relaySendMessage (serverHost targetHost : String)
    (outcome : RelayOutcome) : Bool × Nat :=
  if targetHost = serverHost then (false, 0)
  else
    match outcome with
    | .transportError => (true, 1)
    | .httpStatus code => (decide (code ≠ 200), 1)

/-- The HTTP client timeout of the relay push: http.Post goes through
http.DefaultClient, whose zero Timeout field means no time limit at all,
so no bound exists to model. -/
def relayClientTimeout : Option Nat := none

/-- The federation tail of handleSendMessage: after the message is stored,
a relay push is attempted only when the recipient is not local and the
address splits on the at sign into exactly two parts; a relay error only
appends a warning string, the request still succeeds, and the stored rows
are untouched. Returns the store, the success flag and the warnings. -/
def federationStep (serverHost : String) (store : Store) (toAddr : String)
    (toUserID : Option Nat) (outcome : RelayOutcome) :
    Store × Bool × List String :=
  let parts := addrParts toAddr
  if toUserID = none ∧ 2 ≤ parts.length then
    if parts.length = 2 then
      if (relaySendMessage serverHost (parts.getD 1 "") outcome).1 then
        (store, true, ["Federation to " ++ parts.getD 1 "" ++ " failed"])
      else (store, true, [])
    else (store, true, [])
  else (store, true, [])

/-- The live-update event kinds the hub pushes to a subscriber. -/
inductive SSEEvent
  | connected
  | newMessage (m : Message)
  | unreadCount (count : Nat)
  deriving DecidableEq

/-- The two goroutines notifyNewMessage spawns per subscriber. -/
inductive NotifyTask
  | sendNew (client : Nat)
  | sendUnread (client : Nat)
  deriving DecidableEq

/-- notifyNewMessage of the request server: nothing happens for a message
without a local recipient; otherwise, for every registered subscriber of
the recipient, one goroutine sending the new-message event and one
goroutine computing and sending the unread count are started - two
independent concurrent tasks per subscriber, with no ordering between
them. -/
def notifySpawn (clients : List Nat) (m : Message) : List NotifyTask :=
  match m.toUserID with
  | none => []
  | some _ => clients.flatMap (fun c => [NotifyTask.sendNew c, NotifyTask.sendUnread c])

/-- Executing one spawned task: the new-message event carries the message,
and the unread-count event carries the count computed from the store at
execution time (every subscriber in the bucket of the recipient shares the
recipient id u). -/
def execTask (msgs : List Message) (u : Nat) (m : Message) :
    NotifyTask → Nat × SSEEvent
  | .sendNew c => (c, .newMessage m)
  | .sendUnread c => (c, .unreadCount (getUnreadCount msgs u))

/-- Interleaving semantics for the spawned goroutines: a schedule picks at
every step the index of the next pending task to run; the run is complete
(and yields an observation) exactly when every task has executed. -/
def runTasks (msgs : List Message) (u : Nat) (m : Message) :
    List NotifyTask → List Nat → Option (List (Nat × SSEEvent))
  | pending, [] => if pending = [] then some [] else none
  | pending, i :: rest =>
    match pending[i]? with
    | none => none
    | some t =>
      (runTasks msgs u m (pending.eraseIdx i) rest).map
        (fun evs => execTask msgs u m t :: evs)

/-- Fixture: alice (user 1) wrote to bob (user 2), the root of thread t. -/
def mRoot : Message :=
  { id := 1, fromUserID := some 1, toUserID := some 2,
    fromAddress := "alice@localhost", toAddress := "bob@localhost",
    subject := "Hi", body := "hello", isHTML := false,
    threadID := some "t", parentID := none, readStatus := false,
    createdAt := 10 }

/-- Fixture: the reply of bob to alice in thread t. -/
def mReply : Message :=
  { id := 2, fromUserID := some 2, toUserID := some 1,
    fromAddress := "bob@localhost", toAddress := "alice@localhost",
    subject := "Re: Hi", body := "hi back", isHTML := false,
    threadID := some "t", parentID := some 1, readStatus := false,
    createdAt := 20 }

/-- Fixture: a second reply addressed to alice in thread t. -/
def mReply2 : Message :=
  { id := 3, fromUserID := some 2, toUserID := some 1,
    fromAddress := "bob@localhost", toAddress := "alice@localhost",
    subject := "Re: Hi", body := "again", isHTML := false,
    threadID := some "t", parentID := some 1, readStatus := false,
    createdAt := 30 }

/-- Fixture: an authenticated session of alice with pending recipient and
subject set. -/
def sessEx : SessionState :=
  ⟨true, 1, "alice", ⟨"bob@localhost", "Hi", ""⟩⟩

instance (msgs : List Message) : Decidable (ThreadParentInv msgs) :=
  inferInstanceAs (Decidable (∀ m ∈ msgs, ∀ pm ∈ msgs,
    m.parentID = some pm.id → m.threadID = pm.threadID))

theorem insertLe_perm (le : Message → Message → Bool) (a : Message) :
    ∀ l : List Message, (insertLe le a l).Perm (a :: l)
  | [] => List.Perm.refl _
  | b :: bs => by
    simp only [insertLe]
    split
    · exact List.Perm.refl _
    · exact ((insertLe_perm le a bs).cons b).trans (List.Perm.swap a b bs)

theorem sortLe_perm (le : Message → Message → Bool) :
    ∀ l : List Message, (sortLe le l).Perm l
  | [] => List.Perm.refl _
  | a :: as =>
    (insertLe_perm le a (sortLe le as)).trans ((sortLe_perm le as).cons a)

theorem mem_insertLe {le : Message → Message → Bool} {a x : Message}
    {l : List Message} : x ∈ insertLe le a l ↔ x = a ∨ x ∈ l := by
  rw [(insertLe_perm le a l).mem_iff, List.mem_cons]

theorem insertLe_pairwise (le : Message → Message → Bool)
    (htrans : ∀ x y z, le x y = true → le y z = true → le x z = true)
    (htot : ∀ x y, le x y = true ∨ le y x = true) (a : Message) :
    ∀ l : List Message, List.Pairwise (fun x y => le x y = true) l →
      List.Pairwise (fun x y => le x y = true) (insertLe le a l)
  | [], _ => List.pairwise_singleton _ _
  | b :: bs, hp => by
    rw [List.pairwise_cons] at hp
    simp only [insertLe]
    split
    · rename_i hab
      refine List.Pairwise.cons ?_ (List.Pairwise.cons hp.1 hp.2)
      intro x hx
      rcases List.mem_cons.mp hx with h | h
      · exact h ▸ hab
      · exact htrans a b x hab (hp.1 x h)
    · rename_i hab
      refine List.Pairwise.cons ?_ (insertLe_pairwise le htrans htot a bs hp.2)
      intro x hx
      rcases mem_insertLe.mp hx with h | h
      · rw [h]
        rcases htot a b with h2 | h2
        · exact absurd h2 hab
        · exact h2
      · exact hp.1 x h

theorem sortLe_pairwise (le : Message → Message → Bool)
    (htrans : ∀ x y z, le x y = true → le y z = true → le x z = true)
    (htot : ∀ x y, le x y = true ∨ le y x = true) :
    ∀ l : List Message,
      List.Pairwise (fun x y => le x y = true) (sortLe le l)
  | [] => List.Pairwise.nil
  | a :: as =>
    insertLe_pairwise le htrans htot a _ (sortLe_pairwise le htrans htot as)

theorem createdLe_trans (x y z : Message) : createdLe x y = true →
    createdLe y z = true → createdLe x z = true := by
  simp only [createdLe, decide_eq_true_eq]
  omega

theorem createdLe_total (x y : Message) :
    createdLe x y = true ∨ createdLe y x = true := by
  simp only [createdLe, decide_eq_true_eq]
  omega

theorem timeLeDesc_trans : ∀ x y z, timeLeDesc x y = true →
    timeLeDesc y z = true → timeLeDesc x z = true := by
  intro x y z h1 h2
  cases x <;> cases y <;> cases z <;> (simp_all [timeLeDesc]; try omega)

theorem timeLeDesc_total : ∀ x y, timeLeDesc x y = true ∨ timeLeDesc y x = true := by
  intro x y
  cases x <;> cases y <;> (simp_all [timeLeDesc]; try omega)

theorem inboxLe_trans (msgs : List Message) (u : Nat) (x y z : Message) :
    inboxLe msgs u x y = true → inboxLe msgs u y z = true →
    inboxLe msgs u x z = true :=
  timeLeDesc_trans _ _ _

theorem inboxLe_total (msgs : List Message) (u : Nat) (x y : Message) :
    inboxLe msgs u x y = true ∨ inboxLe msgs u y x = true :=
  timeLeDesc_total _ _

theorem minNat?_ne_none (x : Nat) (xs : List Nat) :
    minNat? (x :: xs) ≠ none := by
  simp only [minNat?]
  cases minNat? xs <;> simp

theorem minNat?_mem : ∀ {l : List Nat} {k : Nat}, minNat? l = some k → k ∈ l
  | [], k, h => by simp [minNat?] at h
  | x :: xs, k, h => by
    simp only [minNat?] at h
    cases hxs : minNat? xs with
    | none =>
      rw [hxs] at h
      simp only [Option.some.injEq] at h
      exact h ▸ List.mem_cons_self x xs
    | some y =>
      rw [hxs] at h
      simp only [Option.some.injEq] at h
      rw [Nat.min_def] at h
      split at h
      · exact h ▸ List.mem_cons_self x xs
      · exact List.mem_cons_of_mem x (h ▸ minNat?_mem hxs)

theorem minNat?_isSome : ∀ {l : List Nat}, l ≠ [] → ∃ k, minNat? l = some k
  | [], h => absurd rfl h
  | x :: xs, _ => by
    simp only [minNat?]
    cases minNat? xs with
    | none => exact ⟨x, rfl⟩
    | some y => exact ⟨Nat.min x y, rfl⟩

theorem minNat?_le : ∀ {l : List Nat} {k : Nat}, minNat? l = some k →
    ∀ x ∈ l, k ≤ x
  | [], k, h => by simp [minNat?] at h
  | x :: xs, k, h => by
    intro z hz
    simp only [minNat?] at h
    cases hxs : minNat? xs with
    | none =>
      rw [hxs] at h
      simp only [Option.some.injEq] at h
      rcases List.mem_cons.mp hz with rfl | hzin
      · omega
      · exfalso
        cases xs with
        | nil => simp at hzin
        | cons b bs => exact minNat?_ne_none b bs hxs
    | some y =>
      rw [hxs] at h
      simp only [Option.some.injEq] at h
      rw [Nat.min_def] at h
      rcases List.mem_cons.mp hz with rfl | hzin
      · split at h <;> omega
      · have := minNat?_le hxs z hzin
        split at h <;> omega

theorem filterMap_map_eq_self {K M : Type} (g : M → K) :
    ∀ (ks : List K) (f : K → Option M),
      (∀ t ∈ ks, ∃ m, f t = some m ∧ g m = t) →
      (ks.filterMap f).map g = ks
  | [], _, _ => rfl
  | t :: ks, f, h => by
    obtain ⟨m, hm, hg⟩ := h t (List.mem_cons_self t ks)
    rw [List.filterMap_cons, hm]
    simp only [List.map_cons, hg]
    rw [filterMap_map_eq_self g ks f (fun t2 ht2 => h t2 (List.mem_cons_of_mem _ ht2))]

theorem perm_cons_eraseIdx {α : Type} :
    ∀ (l : List α) (i : Nat) (t : α), l[i]? = some t →
      l.Perm (t :: l.eraseIdx i)
  | [], i, t, h => by simp at h
  | a :: as, 0, t, h => by
    simp only [List.getElem?_cons_zero, Option.some.injEq] at h
    subst h
    simp [List.eraseIdx]
  | a :: as, i + 1, t, h => by
    simp only [List.getElem?_cons_succ] at h
    have hrec := perm_cons_eraseIdx as i t h
    simp only [List.eraseIdx_cons_succ]
    exact (hrec.cons a).trans (List.Perm.swap t a (as.eraseIdx i))

theorem runTasks_perm (msgs : List Message) (u : Nat) (m : Message) :
    ∀ (choices : List Nat) (pending : List NotifyTask)
      (evs : List (Nat × SSEEvent)),
      runTasks msgs u m pending choices = some evs →
      evs.Perm (pending.map (execTask msgs u m))
  | [], pending, evs, h => by
    simp only [runTasks] at h
    split at h
    · rename_i hp
      simp only [Option.some.injEq] at h
      subst hp
      subst h
      exact List.Perm.refl _
    · exact absurd h (by simp)
  | i :: rest, pending, evs, h => by
    simp only [runTasks] at h
    cases hip : pending[i]? with
    | none => rw [hip] at h; exact absurd h (by simp)
    | some t =>
      rw [hip] at h
      rcases Option.map_eq_some'.mp h with ⟨evs2, hrun, hevs⟩
      have hrec := runTasks_perm msgs u m rest (pending.eraseIdx i) evs2 hrun
      have hperm := (perm_cons_eraseIdx pending i t hip).map (execTask msgs u m)
      subst hevs
      exact (hrec.cons (execTask msgs u m t)).trans hperm.symm

theorem validPick_head : ValidPick List.head? := by
  constructor
  · intro l m h
    cases l with
    | nil => simp at h
    | cons a as =>
      simp only [List.head?_cons, Option.some.injEq] at h
      exact h ▸ List.mem_cons_self a as
  · intro l hl
    cases l with
    | nil => exact absurd rfl hl
    | cons a as => simp

theorem hexVal_hexDigit : ∀ n < 16, hexVal (hexDigit n) = n := by decide

theorem hexChars_length : ∀ bytes : List Nat,
    (hexChars bytes).length = 2 * bytes.length
  | [] => rfl
  | b :: rest => by
    simp only [hexChars, List.length_cons, hexChars_length rest]
    omega

theorem hexChars_inj : ∀ (b1 b2 : List Nat), (∀ x ∈ b1, x < 256) →
    (∀ x ∈ b2, x < 256) → hexChars b1 = hexChars b2 → b1 = b2
  | [], [], _, _, _ => rfl
  | [], b :: bs, _, _, h => by simp [hexChars] at h
  | a :: as, [], _, _, h => by simp [hexChars] at h
  | a :: as, b :: bs, h1, h2, h => by
    simp only [hexChars, List.cons.injEq] at h
    obtain ⟨hh, hl, htail⟩ := h
    have ha := h1 a (List.mem_cons_self a as)
    have hb := h2 b (List.mem_cons_self b bs)
    have h16a : a / 16 < 16 := Nat.div_lt_of_lt_mul ha
    have h16b : b / 16 < 16 := Nat.div_lt_of_lt_mul hb
    have e1 : a / 16 = b / 16 := by
      have := congrArg hexVal hh
      rwa [hexVal_hexDigit _ h16a, hexVal_hexDigit _ h16b] at this
    have e2 : a % 16 = b % 16 := by
      have := congrArg hexVal hl
      rwa [hexVal_hexDigit _ (Nat.mod_lt a (by omega)),
        hexVal_hexDigit _ (Nat.mod_lt b (by omega))] at this
    have hab : a = b := by omega
    subst hab
    rw [hexChars_inj as bs (fun x hx => h1 x (List.mem_cons_of_mem _ hx))
      (fun x hx => h2 x (List.mem_cons_of_mem _ hx)) htail]

theorem mkEntry_msg (msgs : List Message) (u : Nat) (m : Message) :
    (mkEntry msgs u m).msg = m := by
  unfold mkEntry
  cases m.threadID with
  | none => rfl
  | some t =>
    dsimp only
    split
    · split <;> rfl
    · rfl

theorem inboxKeys_group_some (pick : List Message → Option Message)
    (hpick : ValidPick pick) (msgs : List Message) (u : Nat) :
    ∀ t ∈ inboxKeys msgs u, ∃ m, pick (inboxGroup msgs u t) = some m ∧
      m.threadID = t ∧ m ∈ inboxCandidates msgs u := by
  intro t ht
  have ht2 := List.mem_dedup.mp ht
  obtain ⟨c, hc, hct⟩ := List.mem_map.mp ht2
  have hcg : c ∈ inboxGroup msgs u t := by
    rw [inboxGroup, List.mem_filter]
    exact ⟨hc, by rw [hct]; simp⟩
  have hne : inboxGroup msgs u t ≠ [] := fun he => by rw [he] at hcg; simp at hcg
  cases hpk : pick (inboxGroup msgs u t) with
  | none => exact absurd hpk (hpick.2 _ hne)
  | some m =>
    have hmem := hpick.1 _ m hpk
    rw [inboxGroup, List.mem_filter] at hmem
    exact ⟨m, rfl, of_decide_eq_true hmem.2, hmem.1⟩

theorem inboxRepsRaw_map_threadID (pick : List Message → Option Message)
    (hpick : ValidPick pick) (msgs : List Message) (u : Nat) :
    (inboxRepsRaw pick msgs u).map (fun m => m.threadID) = inboxKeys msgs u := by
  apply filterMap_map_eq_self
  intro t ht
  obtain ⟨m, hpk, hmt, _⟩ := inboxKeys_group_some pick hpick msgs u t ht
  exact ⟨m, hpk, hmt⟩

theorem inboxReps_nodup_threadID (pick : List Message → Option Message)
    (hpick : ValidPick pick) (msgs : List Message) (u : Nat) :
    ((inboxReps pick msgs u).map (fun m => m.threadID)).Nodup := by
  have hperm := (sortLe_perm (inboxLe msgs u) (inboxRepsRaw pick msgs u)).map
    (fun m => m.threadID)
  rw [inboxReps, hperm.nodup_iff, inboxRepsRaw_map_threadID pick hpick msgs u]
  exact List.nodup_dedup _

theorem mem_inboxReps (pick : List Message → Option Message)
    (hpick : ValidPick pick) (msgs : List Message) (u : Nat) (m : Message)
    (hm : m ∈ inboxReps pick msgs u) :
    m ∈ msgs ∧ isCandidate msgs u m = true := by
  rw [inboxReps, (sortLe_perm _ _).mem_iff, inboxRepsRaw] at hm
  obtain ⟨t, _, hpk⟩ := List.mem_filterMap.mp hm
  have hmem := hpick.1 _ m hpk
  rw [inboxGroup, List.mem_filter] at hmem
  have := hmem.1
  rw [inboxCandidates, List.mem_filter] at this
  exact this

theorem exists_rep_of_thread (pick : List Message → Option Message)
    (hpick : ValidPick pick) (msgs : List Message) (u : Nat) (t : String)
    (hex2 : ∃ m0 ∈ msgs, m0.threadID = some t ∧ m0.toUserID = some u) :
    ∃ m ∈ inboxReps pick msgs u, m.threadID = some t := by
  obtain ⟨m0, hm0, hm0t, hm0u⟩ := hex2
  have hm0f : m0 ∈ msgs.filter
      (fun m => sameThreadB (some t) m && decide (m.toUserID = some u)) := by
    rw [List.mem_filter]
    refine ⟨hm0, ?_⟩
    simp [sameThreadB, hm0t, hm0u]
  have hne : ((msgs.filter
      (fun m => sameThreadB (some t) m && decide (m.toUserID = some u))).map
      (fun m => m.id)) ≠ [] := by
    intro he
    rw [List.map_eq_nil_iff] at he
    rw [he] at hm0f
    simp at hm0f
  obtain ⟨k, hk⟩ := minNat?_isSome hne
  obtain ⟨mc, hmcf, hmcid⟩ := List.mem_map.mp (minNat?_mem hk)
  rw [List.mem_filter, Bool.and_eq_true, decide_eq_true_eq] at hmcf
  have hmct : mc.threadID = some t := by
    have := hmcf.2.1
    simpa [sameThreadB, decide_eq_true_eq] using this
  have hcand : isCandidate msgs u mc = true := by
    rw [isCandidate, Bool.and_eq_true, Bool.or_eq_true]
    refine ⟨by simp [hmcf.2.2], Or.inr ?_⟩
    rw [hmct]
    show (match minIdTo msgs u (some t) with
      | some k2 => decide (mc.id = k2)
      | none => false) = true
    rw [minIdTo, hk]
    simp [hmcid]
  have hmc_cand : mc ∈ inboxCandidates msgs u := by
    rw [inboxCandidates, List.mem_filter]
    exact ⟨hmcf.1, hcand⟩
  have hkey : (some t : Option String) ∈ inboxKeys msgs u := by
    rw [inboxKeys, List.mem_dedup]
    exact List.mem_map.mpr ⟨mc, hmc_cand, hmct⟩
  obtain ⟨m, hpk, hmt, _⟩ := inboxKeys_group_some pick hpick msgs u _ hkey
  refine ⟨m, ?_, hmt⟩
  rw [inboxReps, (sortLe_perm _ _).mem_iff, inboxRepsRaw]
  exact List.mem_filterMap.mpr ⟨some t, hkey, hpk⟩

theorem replyCount_le_thread_length (msgs : List Message) (u : Nat)
    (t : String) :
    replyCountTo msgs u (some t) ≤ (getThreadByID msgs t).length := by
  rw [getThreadByID, (sortLe_perm _ _).length_eq, replyCountTo]
  have he : msgs.filter
      (fun m => sameThreadB (some t) m && decide (m.toUserID = some u)) =
      (msgs.filter (fun m => decide (m.threadID = some t))).filter
        (fun m => decide (m.toUserID = some u)) := by
    rw [List.filter_filter]
    apply List.filter_congr
    intro m _
    rw [Bool.and_comm]
    rfl
  rw [he]
  exact List.length_filter_le _ _

/-- C9: for every thread identifier, GetThreadByID returns the members of
the thread in non-decreasing creation-time order, does not modify the
store, and calling it twice without intervening writes yields identical
results. -/
theorem c9_thread_query_sorted_idempotent (s : Store) (t : String) :
    List.Pairwise (fun a b => a.createdAt ≤ b.createdAt)
      (getThreadByIDOp t s).1 ∧
    (getThreadByIDOp t s).2 = s ∧
    (getThreadByIDOp t (getThreadByIDOp t s).2).1 = (getThreadByIDOp t s).1 := by
  refine ⟨?_, rfl, rfl⟩
  have := sortLe_pairwise createdLe createdLe_trans createdLe_total
    (s.messages.filter (fun m => decide (m.threadID = some t)))
  exact this.imp (fun h => by simpa [createdLe] using h)

/-- C2: CreateWithThreading uses a supplied thread identifier verbatim;
with both threadID and parentID absent it assigns a fresh identifier that
is the hex encoding of 16 random bytes, hence a 32-character string, and
the encoding is injective on byte strings, so the identifier carries the
full 128 bits drawn from crypto/rand. -/
theorem c2_thread_id_generation :
    (∀ (s : Store) (fu tu : Option Nat) (fa ta sub bod : String) (ih : Bool)
       (pid : Option Nat) (t : String) (bytes : List Nat) (now : Nat),
       (createWithThreading s fu tu fa ta sub bod ih (some t) pid bytes
         now).2.threadID = some t) ∧
    (∀ (s : Store) (fu tu : Option Nat) (fa ta sub bod : String) (ih : Bool)
       (bytes : List Nat) (now : Nat),
       (createWithThreading s fu tu fa ta sub bod ih none none bytes
         now).2.threadID = some (generateThreadID bytes)) ∧
    (∀ bytes : List Nat, bytes.length = 16 →
       (generateThreadID bytes).length = 32) ∧
    (∀ b1 b2 : List Nat, (∀ x ∈ b1, x < 256) → (∀ x ∈ b2, x < 256) →
       generateThreadID b1 = generateThreadID b2 → b1 = b2) ∧
    (∀ n < 16, hexDigit n ∈ "0123456789abcdef".data) := by
  refine ⟨?_, ?_, ?_, ?_, by decide⟩
  · intro s fu tu fa ta sub bod ih pid t bytes now
    simp [createWithThreading]
  · intro s fu tu fa ta sub bod ih bytes now
    simp [createWithThreading]
  · intro bytes hlen
    show (hexChars bytes).length = 32
    rw [hexChars_length, hlen]
  · intro b1 b2 h1 h2 h
    have hdata : hexChars b1 = hexChars b2 := congrArg String.data h
    exact hexChars_inj b1 b2 h1 h2 hdata

/-- Witness for C2 at concrete inputs: sixteen zero bytes are a valid
byte string, the generated identifier has 32 characters, and a create
call with no threading hints assigns exactly that identifier. -/
theorem c2_witness :
    (List.replicate 16 0).length = 16 ∧
    (∀ x ∈ List.replicate 16 (0 : Nat), x < 256) ∧
    (generateThreadID (List.replicate 16 0)).length = 32 ∧
    (createWithThreading ⟨[], 1⟩ (some 1) (some 2) "alice@localhost"
      "bob@localhost" "Hi" "hello" false none none (List.replicate 16 0)
      5).2.threadID = some (generateThreadID (List.replicate 16 0)) :=
  ⟨by decide, by decide,
    c2_thread_id_generation.2.2.1 (List.replicate 16 0) (by decide),
    c2_thread_id_generation.2.1 ⟨[], 1⟩ (some 1) (some 2) "alice@localhost"
      "bob@localhost" "Hi" "hello" false (List.replicate 16 0) 5⟩

/-- C1 counterexample: the Thread Store accepts a reply whose supplied
thread identifier differs from the thread of its parent, so the persisted
state violates the claimed invariant. -/
theorem c1_counterexample :
    ¬ ThreadParentInv ((createWithThreading ⟨[mRoot], 2⟩ (some 2) (some 1)
      "bob@localhost" "alice@localhost" "Re: Hi" "x" false (some "u")
      (some 1) [] 20).1.messages) := by decide

/-- C1 (amended): CreateWithThreading does not consult the parent; it
persists the caller-supplied thread identifier verbatim, so a reply
carries the thread identifier of its parent exactly when the caller
supplies that identifier, and under that discipline the invariant is
preserved across a create (given unique ids and no dangling forward
parent references). -/
theorem c1_create_preserves_inv_when_caller_matches
    (s : Store) (fu tu : Option Nat) (fa ta sub bod : String) (ih : Bool)
    (tid : Option String) (p : Nat) (bytes : List Nat) (now : Nat)
    (pm : Message)
    (hids : (s.messages.map (fun m => m.id)).Nodup)
    (hlt : ∀ m ∈ s.messages, m.id < s.nextId)
    (hplt : ∀ m ∈ s.messages, ∀ q, m.parentID = some q → q < s.nextId)
    (hinv : ThreadParentInv s.messages)
    (hpm : pm ∈ s.messages) (hpid : pm.id = p) (htid : tid = pm.threadID) :
    (createWithThreading s fu tu fa ta sub bod ih tid (some p) bytes
      now).2.threadID = pm.threadID ∧
    ThreadParentInv (createWithThreading s fu tu fa ta sub bod ih tid
      (some p) bytes now).1.messages := by
  have htid2 : (if tid = none ∧ (some p : Option Nat) = none
      then some (generateThreadID bytes) else tid) = tid := by
    simp
  constructor
  · show (if tid = none ∧ (some p : Option Nat) = none
      then some (generateThreadID bytes) else tid) = pm.threadID
    rw [htid2, htid]
  · intro m hm pm2 hpm2 hpar
    simp only [createWithThreading, List.mem_append, List.mem_singleton] at hm hpm2
    rcases hm with hm | hm
    · rcases hpm2 with hpm2 | hpm2
      · exact hinv m hm pm2 hpm2 hpar
      · exfalso
        subst hpm2
        simp only at hpar
        have := hplt m hm s.nextId hpar
        omega
    · rcases hpm2 with hpm2 | hpm2
      · subst hm
        simp only at hpar ⊢
        rw [htid2, htid]
        simp only [Option.some.injEq] at hpar
        have hpm2id : pm2.id = pm.id := by rw [← hpar, hpid]
        have := List.inj_on_of_nodup_map hids hpm2 hpm hpm2id
        rw [this]
      · exfalso
        subst hm
        subst hpm2
        simp only [Option.some.injEq] at hpar
        have := hlt pm hpm
        omega

/-- Witness for C1 at concrete inputs: a reply created with the thread
identifier of its parent keeps that identifier and the invariant holds on
the resulting store. -/
theorem c1_witness :
    (([mRoot].map (fun m => m.id)).Nodup ∧
     (∀ m ∈ [mRoot], m.id < 2) ∧
     (∀ m ∈ [mRoot], ∀ q, m.parentID = some q → q < 2) ∧
     ThreadParentInv [mRoot] ∧ mRoot ∈ [mRoot] ∧ mRoot.id = 1 ∧
     (some "t" : Option String) = mRoot.threadID) ∧
    (createWithThreading ⟨[mRoot], 2⟩ (some 2) (some 1) "bob@localhost"
      "alice@localhost" "Re: Hi" "x" false (some "t") (some 1) []
      20).2.threadID = mRoot.threadID ∧
    ThreadParentInv (createWithThreading ⟨[mRoot], 2⟩ (some 2) (some 1)
      "bob@localhost" "alice@localhost" "Re: Hi" "x" false (some "t")
      (some 1) [] 20).1.messages :=
  ⟨⟨by decide, by decide, by decide, by decide, by decide, by decide,
    by decide⟩,
   c1_create_preserves_inv_when_caller_matches ⟨[mRoot], 2⟩ (some 2)
     (some 1) "bob@localhost" "alice@localhost" "Re: Hi" "x" false
     (some "t") 1 [] 20 mRoot (by decide) (by decide) (by decide)
     (by decide) (by decide) (by decide) (by decide)⟩

/-- C3 counterexample: for alice the only thread in store holds messages
with ids 1 and 2, yet the returned representative is the message with id
2 (the minimal id among the rows addressed to alice), not the message
with the minimum identifier in the thread. -/
theorem c3_counterexample :
    ¬ (∀ e ∈ getInboxForUser List.head? [mRoot, mReply] 1 10 0,
        ∀ m ∈ [mRoot, mReply], m.threadID = e.msg.threadID →
          e.msg.id ≤ m.id) := by decide

/-- C3 (amended): every representative GetInboxForUser returns is a
message addressed to the account that either has no parent or carries the
minimum identifier among the messages of its thread addressed to the
account; representatives are ordered by the most recent creation time
among the messages of their thread addressed to the account, descending;
every thread containing a message addressed to the account contributes a
representative; and limit and offset apply to the representative rows,
not to raw message rows. -/
theorem c3_inbox_algorithm (pick : List Message → Option Message)
    (hpick : ValidPick pick) (msgs : List Message) (u limit offset : Nat) :
    (∀ m ∈ inboxReps pick msgs u, m ∈ msgs ∧ m.toUserID = some u ∧
       (m.parentID = none ∨ minIdTo msgs u m.threadID = some m.id)) ∧
    List.Pairwise (fun a b => inboxLe msgs u a b = true)
      (inboxReps pick msgs u) ∧
    (∀ t : String, (∃ m0 ∈ msgs, m0.threadID = some t ∧
        m0.toUserID = some u) →
      ∃ m ∈ inboxReps pick msgs u, m.threadID = some t) ∧
    getInboxForUser pick msgs u limit offset =
      (((inboxReps pick msgs u).drop offset).take limit).map
        (mkEntry msgs u) := by
  refine ⟨?_, ?_, ?_, rfl⟩
  · intro m hm
    obtain ⟨hmem, hcand⟩ := mem_inboxReps pick hpick msgs u m hm
    rw [isCandidate, Bool.and_eq_true, Bool.or_eq_true, decide_eq_true_eq,
      decide_eq_true_eq] at hcand
    refine ⟨hmem, hcand.1, ?_⟩
    rcases hcand.2 with h | h
    · exact Or.inl h
    · right
      cases hmin : minIdTo msgs u m.threadID with
      | none => rw [hmin] at h; simp at h
      | some k =>
        rw [hmin] at h
        simp only [decide_eq_true_eq] at h
        rw [h]
  · rw [inboxReps]
    exact sortLe_pairwise (inboxLe msgs u) (inboxLe_trans msgs u)
      (inboxLe_total msgs u) _
  · intro t hext
    exact exists_rep_of_thread pick hpick msgs u t hext

/-- Witness for C3 at concrete inputs: the head choice is a valid GROUP
BY row choice, and the amended algorithm description holds on the
two-message store for alice. -/
theorem c3_witness :
    ValidPick List.head? ∧
    ((∀ m ∈ inboxReps List.head? [mRoot, mReply] 1, m ∈ [mRoot, mReply] ∧
        m.toUserID = some 1 ∧ (m.parentID = none ∨
          minIdTo [mRoot, mReply] 1 m.threadID = some m.id)) ∧
     List.Pairwise (fun a b => inboxLe [mRoot, mReply] 1 a b = true)
       (inboxReps List.head? [mRoot, mReply] 1) ∧
     (∀ t : String, (∃ m0 ∈ [mRoot, mReply], m0.threadID = some t ∧
         m0.toUserID = some 1) →
       ∃ m ∈ inboxReps List.head? [mRoot, mReply] 1, m.threadID = some t) ∧
     getInboxForUser List.head? [mRoot, mReply] 1 10 0 =
       (((inboxReps List.head? [mRoot, mReply] 1).drop 0).take 10).map
         (mkEntry [mRoot, mReply] 1)) :=
  ⟨validPick_head, c3_inbox_algorithm List.head? validPick_head
    [mRoot, mReply] 1 10 0⟩

/-- C4: GetInboxForUser never returns two representatives of the same
thread, and every returned representative is itself a stored message
addressed to the queried account, so no returned thread consists solely
of messages the account sent. -/
theorem c4_inbox_one_per_thread (pick : List Message → Option Message)
    (hpick : ValidPick pick) (msgs : List Message) (u limit offset : Nat) :
    ((getInboxForUser pick msgs u limit offset).map
      (fun e => e.msg.threadID)).Nodup ∧
    ∀ e ∈ getInboxForUser pick msgs u limit offset,
      e.msg ∈ msgs ∧ e.msg.toUserID = some u := by
  have hwin : (((inboxReps pick msgs u).drop offset).take limit).Sublist
      (inboxReps pick msgs u) :=
    (List.take_sublist _ _).trans (List.drop_sublist _ _)
  constructor
  · have h1 : (getInboxForUser pick msgs u limit offset).map
        (fun e => e.msg.threadID) =
        (((inboxReps pick msgs u).drop offset).take limit).map
          (fun m => m.threadID) := by
      rw [getInboxForUser, List.map_map]
      exact List.map_congr_left (fun m _ => by
        simp [Function.comp, mkEntry_msg])
    rw [h1]
    exact (hwin.map (fun m => m.threadID)).nodup
      (inboxReps_nodup_threadID pick hpick msgs u)
  · intro e he
    rw [getInboxForUser] at he
    obtain ⟨m, hmwin, hme⟩ := List.mem_map.mp he
    have hm : m ∈ inboxReps pick msgs u := hwin.mem hmwin
    obtain ⟨hmem, hcand⟩ := mem_inboxReps pick hpick msgs u m hm
    rw [isCandidate, Bool.and_eq_true, decide_eq_true_eq] at hcand
    rw [← hme, mkEntry_msg]
    exact ⟨hmem, hcand.1⟩

/-- Witness for C4 at concrete inputs. -/
theorem c4_witness :
    ValidPick List.head? ∧
    ((getInboxForUser List.head? [mRoot, mReply] 1 10 0).map
      (fun e => e.msg.threadID)).Nodup ∧
    ∀ e ∈ getInboxForUser List.head? [mRoot, mReply] 1 10 0,
      e.msg ∈ [mRoot, mReply] ∧ e.msg.toUserID = some 1 :=
  ⟨validPick_head,
    c4_inbox_one_per_thread List.head? validPick_head [mRoot, mReply] 1 10 0⟩

/-- C5 counterexample: the thread of the returned representative holds
two messages, yet Replies is empty rather than the set of thread members
other than the representative, because the source guards reply loading by
the count of thread messages addressed to the user, which is one here. -/
theorem c5_counterexample :
    ¬ (∀ e ∈ getInboxForUser List.head? [mRoot, mReply] 1 10 0,
        1 < ([mRoot, mReply].filter
          (fun m => decide (m.threadID = e.msg.threadID))).length →
        e.replies.Perm ([mRoot, mReply].filter
          (fun m => decide (m.threadID = e.msg.threadID) &&
            decide (¬ m = e.msg)))) := by decide

/-- C5 (amended): Replies of a returned representative is populated only
when more than one message of its thread is addressed to the queried
account; it is then the whole thread in creation-time order with its
first (earliest-created) element dropped - which can include the
representative itself and omit the earliest member - and it is empty
whenever at most one thread member is addressed to the account or the
thread id is NULL. -/
theorem c5_inbox_replies (pick : List Message → Option Message)
    (_hpick : ValidPick pick) (msgs : List Message) (u limit offset : Nat) :
    ∀ e ∈ getInboxForUser pick msgs u limit offset,
      (∀ t, e.msg.threadID = some t →
        (1 < replyCountTo msgs u (some t) →
          e.replies = (getThreadByID msgs t).drop 1 ∧
          1 < (getThreadByID msgs t).length) ∧
        (replyCountTo msgs u (some t) ≤ 1 → e.replies = [])) ∧
      (e.msg.threadID = none → e.replies = []) := by
  intro e he
  rw [getInboxForUser] at he
  obtain ⟨m, _, hme⟩ := List.mem_map.mp he
  subst hme
  constructor
  · intro t ht
    rw [mkEntry_msg] at ht
    constructor
    · intro hcount
      have hlen : 1 < (getThreadByID msgs t).length :=
        Nat.lt_of_lt_of_le hcount (replyCount_le_thread_length msgs u t)
      refine ⟨?_, hlen⟩
      rw [mkEntry, ht]
      simp only [if_pos hcount, if_pos hlen]
    · intro hcount
      rw [mkEntry, ht]
      simp only [if_neg (by omega : ¬ 1 < replyCountTo msgs u (some t))]
  · intro ht
    rw [mkEntry_msg] at ht
    rw [mkEntry, ht]

/-- Witness for C5 at concrete inputs: with two replies addressed to
alice in thread t, the returned entry carries the thread minus its
earliest member as Replies. -/
theorem c5_witness :
    ValidPick List.head? ∧
    ∀ e ∈ getInboxForUser List.head? [mRoot, mReply, mReply2] 1 10 0,
      (∀ t, e.msg.threadID = some t →
        (1 < replyCountTo [mRoot, mReply, mReply2] 1 (some t) →
          e.replies = (getThreadByID [mRoot, mReply, mReply2] t).drop 1 ∧
          1 < (getThreadByID [mRoot, mReply, mReply2] t).length) ∧
        (replyCountTo [mRoot, mReply, mReply2] 1 (some t) ≤ 1 →
          e.replies = [])) ∧
      (e.msg.threadID = none → e.replies = []) :=
  ⟨validPick_head, c5_inbox_replies List.head? validPick_head
    [mRoot, mReply, mReply2] 1 10 0⟩

/-- C6 counterexample: when the store rejects the INSERT, handleBody
answers with the failure code but keeps the pending compose state
(recipient, subject and the just-set body) instead of clearing it. -/
theorem c6_counterexample :
    (handleBody "localhost" (fun _ => some 2) ⟨[], 1⟩ sessEx "text" false []
      5).2.2.1 = SessionResponse.sendFailed ∧
    ¬ ((handleBody "localhost" (fun _ => some 2) ⟨[], 1⟩ sessEx "text" false
      [] 5).2.1.currentMessage = (⟨"", "", ""⟩ : ComposeState)) := by decide

/-- C6 (amended): in an authenticated session BODY requires a pending
recipient and subject and otherwise is rejected without contacting the
Thread Store; it then submits the composed message synchronously; on
success the pending compose state is cleared and the response carries the
assigned identifier; on failure the pending state (with the body just
set) is retained and a failure code is returned; without authentication
it is rejected without contacting the store. -/
theorem c6_body_submit :
    (∀ (host : String) (lookup : String → Option Nat) (store : Store)
       (s : SessionState) (args : String) (dbOk : Bool) (bytes : List Nat)
       (now : Nat), s.authenticated = false →
       handleBody host lookup store s args dbOk bytes now =
         (store, s, SessionResponse.notAuthenticated, false)) ∧
    (∀ (host : String) (lookup : String → Option Nat) (store : Store)
       (s : SessionState) (args : String) (dbOk : Bool) (bytes : List Nat)
       (now : Nat), s.authenticated = true →
       (s.currentMessage.sendTo = "" ∨ s.currentMessage.subject = "") →
       handleBody host lookup store s args dbOk bytes now =
         (store, s, SessionResponse.needSendAndSubject, false)) ∧
    (∀ (host : String) (lookup : String → Option Nat) (store : Store)
       (s : SessionState) (args : String) (bytes : List Nat) (now : Nat),
       s.authenticated = true → s.currentMessage.sendTo ≠ "" →
       s.currentMessage.subject ≠ "" →
       handleBody host lookup store s args true bytes now =
         ((createWithThreading store (some s.userID)
             (resolveLocalRecipient host lookup s.currentMessage.sendTo)
             (s.username ++ "@" ++ host) s.currentMessage.sendTo
             s.currentMessage.subject args false none none bytes now).1,
          { s with currentMessage := ⟨"", "", ""⟩ },
          SessionResponse.sentOk store.nextId, true)) ∧
    (∀ (host : String) (lookup : String → Option Nat) (store : Store)
       (s : SessionState) (args : String) (bytes : List Nat) (now : Nat),
       s.authenticated = true → s.currentMessage.sendTo ≠ "" →
       s.currentMessage.subject ≠ "" →
       handleBody host lookup store s args false bytes now =
         (store, { s with currentMessage :=
            ⟨s.currentMessage.sendTo, s.currentMessage.subject, args⟩ },
          SessionResponse.sendFailed, true)) := by
  refine ⟨?_, ?_, ?_, ?_⟩
  · intro host lookup store s args dbOk bytes now hauth
    simp [handleBody, hauth]
  · intro host lookup store s args dbOk bytes now hauth hempty
    simp [handleBody, hauth, hempty]
  · intro host lookup store s args bytes now hauth hto hsubj
    simp [handleBody, hauth, hto, hsubj, createWithThreading]
  · intro host lookup store s args bytes now hauth hto hsubj
    simp [handleBody, hauth, hto, hsubj]

/-- Witness for C6 at concrete inputs: the authenticated session of alice
with pending recipient and subject, both for a successful and for a
failed INSERT. -/
theorem c6_witness :
    (sessEx.authenticated = true ∧ sessEx.currentMessage.sendTo ≠ "" ∧
     sessEx.currentMessage.subject ≠ "") ∧
    handleBody "localhost" (fun _ => some 2) ⟨[], 1⟩ sessEx "text" true []
      5 =
      ((createWithThreading ⟨[], 1⟩ (some 1)
          (resolveLocalRecipient "localhost" (fun _ => some 2)
            sessEx.currentMessage.sendTo)
          ("alice" ++ "@" ++ "localhost") sessEx.currentMessage.sendTo
          sessEx.currentMessage.subject "text" false none none [] 5).1,
       { sessEx with currentMessage := ⟨"", "", ""⟩ },
       SessionResponse.sentOk 1, true) ∧
    handleBody "localhost" (fun _ => some 2) ⟨[], 1⟩ sessEx "text" false []
      5 =
      (⟨[], 1⟩, { sessEx with currentMessage :=
         ⟨sessEx.currentMessage.sendTo, sessEx.currentMessage.subject,
          "text"⟩ }, SessionResponse.sendFailed, true) :=
  ⟨⟨by decide, by decide, by decide⟩,
   c6_body_submit.2.2.1 "localhost" (fun _ => some 2) ⟨[], 1⟩ sessEx
     "text" [] 5 (by decide) (by decide) (by decide),
   c6_body_submit.2.2.2 "localhost" (fun _ => some 2) ⟨[], 1⟩ sessEx
     "text" [] 5 (by decide) (by decide) (by decide)⟩

/-- C7 counterexample: the two events are dispatched in separate
goroutines, so a complete execution exists in which the subscriber
observes the unread-count event before the new-message event,
contradicting the claimed observation order. -/
theorem c7_counterexample :
    ¬ (∀ evs : List (Nat × SSEEvent),
        runTasks [mRoot] 2 mRoot (notifySpawn [0] mRoot) [1, 0] = some evs →
        evs = [(0, SSEEvent.newMessage mRoot),
               (0, SSEEvent.unreadCount (getUnreadCount [mRoot] 2))]) := by
  intro h
  exact absurd (h [(0, SSEEvent.unreadCount 1),
    (0, SSEEvent.newMessage mRoot)] (by decide)) (by decide)

/-- C7 (amended): for every new-message notification with a local
recipient, the hub dispatches to every subscriber of that account both
the new-message event and a freshly computed unread-count event, but in
two independent concurrent tasks: every complete execution delivers both
events to each subscriber, in an order the schedule determines. -/
theorem c7_notify_fanout (msgs : List Message) (u : Nat) (m : Message)
    (clients : List Nat) (choices : List Nat)
    (evs : List (Nat × SSEEvent)) (hu : m.toUserID = some u)
    (hrun : runTasks msgs u m (notifySpawn clients m) choices = some evs) :
    evs.Perm (clients.flatMap (fun c =>
      [(c, SSEEvent.newMessage m),
       (c, SSEEvent.unreadCount (getUnreadCount msgs u))])) ∧
    ∀ c ∈ clients, (c, SSEEvent.newMessage m) ∈ evs ∧
      (c, SSEEvent.unreadCount (getUnreadCount msgs u)) ∈ evs := by
  have hperm := runTasks_perm msgs u m choices (notifySpawn clients m) evs hrun
  have hspawn : (notifySpawn clients m).map (execTask msgs u m) =
      clients.flatMap (fun c =>
        [(c, SSEEvent.newMessage m),
         (c, SSEEvent.unreadCount (getUnreadCount msgs u))]) := by
    rw [notifySpawn, hu, List.map_flatMap]
    simp only [List.map_cons, List.map_nil, execTask]
  rw [hspawn] at hperm
  refine ⟨hperm, ?_⟩
  intro c hc
  constructor
  · exact hperm.symm.mem_iff.mp (List.mem_flatMap.mpr ⟨c, hc, by simp⟩)
  · exact hperm.symm.mem_iff.mp (List.mem_flatMap.mpr ⟨c, hc, by simp⟩)

/-- Witness for C7 at concrete inputs: the schedule running the tasks in
spawn order delivers the new-message event and then the unread-count
event for the single subscriber of bob. -/
theorem c7_witness :
    mRoot.toUserID = some 2 ∧
    runTasks [mRoot] 2 mRoot (notifySpawn [0] mRoot) [0, 0] =
      some [(0, SSEEvent.newMessage mRoot),
            (0, SSEEvent.unreadCount (getUnreadCount [mRoot] 2))] ∧
    [(0, SSEEvent.newMessage mRoot),
     (0, SSEEvent.unreadCount (getUnreadCount [mRoot] 2))].Perm
      ([0].flatMap (fun c =>
        [(c, SSEEvent.newMessage mRoot),
         (c, SSEEvent.unreadCount (getUnreadCount [mRoot] 2))])) :=
  ⟨by decide, by decide,
   (c7_notify_fanout [mRoot] 2 mRoot [0] [0, 0] _ (by decide) (by decide)).1⟩

/-- C8 counterexample: the relay push has no bounded timeout; http.Post
goes through the default client whose zero timeout means no limit, so no
bound exists. -/
theorem c8_counterexample :
    ¬ ∃ bound : Nat, relayClientTimeout = some bound := by
  simp [relayClientTimeout]

/-- C8 (amended): Relay SendMessage returns success without any outbound
push when the target host equals this server; otherwise it performs
exactly one best-effort push (with no configured timeout), and any
transport error or non-200 response is reported as an error to the
caller, which handleSendMessage treats as non-fatal: the stored message
is untouched, the request still succeeds, and the failure surfaces only
as a warning. -/
theorem c8_relay_best_effort :
    (∀ (h : String) (outcome : RelayOutcome),
       relaySendMessage h h outcome = (false, 0)) ∧
    (∀ (h t : String) (outcome : RelayOutcome), t ≠ h →
       (relaySendMessage h t outcome).2 = 1) ∧
    (∀ (h t : String), t ≠ h →
       (relaySendMessage h t RelayOutcome.transportError).1 = true) ∧
    (∀ (h t : String) (code : Nat), t ≠ h →
       ((relaySendMessage h t (RelayOutcome.httpStatus code)).1 = true ↔
         code ≠ 200)) ∧
    (∀ (h : String) (store : Store) (toAddr : String)
       (toU : Option Nat) (outcome : RelayOutcome),
       (federationStep h store toAddr toU outcome).1 = store ∧
       (federationStep h store toAddr toU outcome).2.1 = true) ∧
    (∀ (h : String) (store : Store) (toAddr : String)
       (outcome : RelayOutcome), (addrParts toAddr).length = 2 →
       (relaySendMessage h ((addrParts toAddr).getD 1 "") outcome).1 = true →
       (federationStep h store toAddr none outcome).2.2 ≠ []) := by
  refine ⟨?_, ?_, ?_, ?_, ?_, ?_⟩
  · intro h outcome
    simp [relaySendMessage]
  · intro h t outcome hne
    cases outcome <;> simp [relaySendMessage, hne]
  · intro h t hne
    simp [relaySendMessage, hne]
  · intro h t code hne
    simp [relaySendMessage, hne]
  · intro h store toAddr toU outcome
    rw [federationStep]
    split
    · split
      · split
        · exact ⟨rfl, rfl⟩
        · exact ⟨rfl, rfl⟩
      · exact ⟨rfl, rfl⟩
    · exact ⟨rfl, rfl⟩
  · intro h store toAddr outcome hlen herr
    rw [federationStep]
    simp only [hlen]
    simp only [if_true]
    rw [if_pos herr]
    simp

/-- Witness for C8 at concrete inputs: pushing to a distinct remote host
counts exactly one attempt, a transport error is reported, and the
federation step still succeeds with the store untouched and a warning
recorded. -/
theorem c8_witness :
    ("remote" ≠ "localhost") ∧
    (relaySendMessage "localhost" "remote" RelayOutcome.transportError).2
      = 1 ∧
    (relaySendMessage "localhost" "remote"
      RelayOutcome.transportError).1 = true ∧
    ((federationStep "localhost" ⟨[mRoot], 2⟩ "eve@remote" none
        RelayOutcome.transportError).1 = ⟨[mRoot], 2⟩ ∧
     (federationStep "localhost" ⟨[mRoot], 2⟩ "eve@remote" none
        RelayOutcome.transportError).2.1 = true) ∧
    (federationStep "localhost" ⟨[mRoot], 2⟩ "eve@remote" none
      RelayOutcome.transportError).2.2 ≠ [] :=
  ⟨by decide,
   c8_relay_best_effort.2.1 "localhost" "remote"
     RelayOutcome.transportError (by decide),
   c8_relay_best_effort.2.2.1 "localhost" "remote" (by decide),
   c8_relay_best_effort.2.2.2.2.1 "localhost" ⟨[mRoot], 2⟩ "eve@remote"
     none RelayOutcome.transportError,
   c8_relay_best_effort.2.2.2.2.2 "localhost" ⟨[mRoot], 2⟩ "eve@remote"
     RelayOutcome.transportError (by decide) (by decide)⟩

/-- C10: the mark-as-read endpoint modifies nothing and answers not-found
when the message does not exist, modifies nothing and answers
access-denied when the requester is not the local recipient (including a
missing local recipient), and sets the read flag only when the requester
is the recipient. -/
theorem c10_mark_read_authorization (msgs : List Message)
    (uid mid : Nat) :
    (getByID msgs mid = none →
       handleMarkAsRead msgs uid mid = (msgs, MarkReadResponse.notFound)) ∧
    (∀ m, getByID msgs mid = some m → m.toUserID ≠ some uid →
       handleMarkAsRead msgs uid mid =
         (msgs, MarkReadResponse.accessDenied)) ∧
    (∀ m, getByID msgs mid = some m → m.toUserID = some uid →
       handleMarkAsRead msgs uid mid =
         (markAsRead msgs mid, MarkReadResponse.success) ∧
       ∀ m2 ∈ (handleMarkAsRead msgs uid mid).1, m2.id = mid →
         m2.readStatus = true) := by
  refine ⟨?_, ?_, ?_⟩
  · intro hnone
    rw [handleMarkAsRead, hnone]
  · intro m hsome hne
    rw [handleMarkAsRead, hsome]
    simp [hne]
  · intro m hsome heq
    have hres : handleMarkAsRead msgs uid mid =
        (markAsRead msgs mid, MarkReadResponse.success) := by
      rw [handleMarkAsRead, hsome]
      simp [heq]
    refine ⟨hres, ?_⟩
    intro m2 hm2 hid
    rw [hres] at hm2
    obtain ⟨m3, _, hm3⟩ := List.mem_map.mp hm2
    by_cases h3 : m3.id = mid
    · rw [if_pos h3] at hm3
      rw [← hm3]
    · rw [if_neg h3] at hm3
      rw [← hm3] at hid
      exact absurd hid h3

/-- Witness for C10 at concrete inputs: marking the message of bob as bob
succeeds and sets the flag, as alice it is denied without modification,
and a missing id answers not-found. -/
theorem c10_witness :
    (getByID [mRoot] 1 = some mRoot ∧ mRoot.toUserID = some 2 ∧
      handleMarkAsRead [mRoot] 2 1 =
        (markAsRead [mRoot] 1, MarkReadResponse.success)) ∧
    (mRoot.toUserID ≠ some 9 ∧ handleMarkAsRead [mRoot] 9 1 =
      ([mRoot], MarkReadResponse.accessDenied)) ∧
    (getByID [mRoot] 7 = none ∧ handleMarkAsRead [mRoot] 2 7 =
      ([mRoot], MarkReadResponse.notFound)) :=
  ⟨⟨by decide, by decide,
    ((c10_mark_read_authorization [mRoot] 2 1).2.2 mRoot (by decide)
      (by decide)).1⟩,
   ⟨by decide, (c10_mark_read_authorization [mRoot] 9 1).2.1 mRoot
      (by decide) (by decide)⟩,
   ⟨by decide, (c10_mark_read_authorization [mRoot] 2 7).1 (by decide)⟩⟩
